import Mathlib

/-!
Verification of the event claiming and dispatch subsystem of the
central-backend worker (the checker and runner of lib/worker/worker.js).
The worker module itself is not among the provided sources; only its
integration tests are (test/integration/worker/worker.js). The
definitions below are therefore modelled from the specification
(spec.md sections 3 and 4) and from the observable behavior the tests
pin down: timestamps are integers (minutes), the event store is a list
of events, and job handlers are functions from an event to an
exceptional result.
-/

namespace Worker

/-- Modelled from the spec: the persisted audit Event record (spec §3).
The original model class is not among the sources. Timestamps are
integer minutes; optional timestamps are None when unset. -/
structure Event where
  id : Int
  action : String
  loggedAt : Int
  claimed : Option Int := none
  processed : Option Int := none
  failures : Nat := 0
  lastFailure : Option Int := none
deriving Repr, DecidableEq

/-- Modelled from the spec: the retry cap (spec §4.1 rule 3: 4 failures
still eligible, 6 never eligible; the spec suggests a cap of 5). -/
def maxFailures : Nat := 5

/-- Modelled from the spec: the backoff interval in minutes (spec §4.1
rule 4: an event failed moments ago is ineligible, one whose last
failure was 11 minutes ago is eligible; a fixed ten-minute backoff). -/
def backoffInterval : Int := 10

/-- Modelled from the spec: the claim staleness threshold in minutes
(spec §4.1 rule 2: an event claimed 3 hours prior is reclaimable; a
fixed threshold on the order of 1 to 3 hours — two hours here). -/
def staleThreshold : Int := 120

/-- Modelled from the spec: eligibility rule 2 — unclaimed, or the
claim is older than the staleness threshold. -/
def claimOk (now : Int) (ev : Event) : Bool :=
  match ev.claimed with
  | none => true
  | some c => decide (staleThreshold < now - c)

/-- Modelled from the spec: eligibility rule 4 — never failed, or the
last failure is older than the backoff interval. -/
def backoffOk (now : Int) (ev : Event) : Bool :=
  match ev.lastFailure with
  | none => true
  | some f => decide (backoffInterval < now - f)

/-- Modelled from the spec: the full eligibility predicate of the
checker (spec §4.1 rules 1 through 4). -/
def eligible (now : Int) (ev : Event) : Bool :=
  ev.processed.isNone && claimOk now ev
    && decide (ev.failures < maxFailures) && backoffOk now ev

/-- Modelled from the spec: the selection preference — strictly older
loggedAt first, ties broken by smaller id (spec §4.1 selection order). -/
def better (a b : Event) : Bool :=
  if a.loggedAt < b.loggedAt then true
  else if a.loggedAt = b.loggedAt ∧ a.id < b.id then true
  else false

/-- Fold step keeping the preferred of the accumulator and the next event. -/
def pickBetter (acc : Option Event) (ev : Event) : Option Event :=
  match acc with
  | none => some ev
  | some b => if better ev b then some ev else some b

/-- Modelled from the spec: the checker's candidate selection — the
preferred (oldest, then smallest id) among the eligible events. -/
def selectEligible (now : Int) (store : List Event) : Option Event :=
  (store.filter (fun e => eligible now e)).foldl pickBetter none

/-- Modelled from the spec: one checker call against the store (spec
§4.1). It selects at most one eligible event, stamps its claimed field
with the call time, persists that stamp, and returns the claimed event;
with no eligible event it returns none and the store is unchanged. -/
def claim (now : Int) (store : List Event) : Option Event × List Event :=
  match selectEligible now store with
  | none => (none, store)
  | some ev =>
      (some { ev with claimed := some now },
       store.map (fun e => if e.id = ev.id then { ev with claimed := some now } else e))

/-- A job handler: receives the event and either succeeds or fails. -/
def Handler : Type := Event → Except String Unit

/-- The Job Registry: action names mapped to their handler lists. -/
def JobMap : Type := List (String × List Handler)

/-- Modelled from the spec: registry lookup; an absent action name is
the defined no-match case (spec §9), a present name matches even with
an empty handler list (as the runner tests observe). -/
def lookupJobs (jobMap : JobMap) (act : String) : Option (List Handler) :=
  match jobMap.find? (fun p => p.fst == act) with
  | some p => some p.snd
  | none => none

/-- Modelled from the spec: run every matched handler against the
event; all are awaited (spec §4.2 step 2). Returns the number of
handlers run and the error of the first failing handler, if any. -/
def runHandlers (jobs : List Handler) (ev : Event) : Nat × Option String :=
  match jobs with
  | [] => (0, none)
  | h :: rest =>
      let tail := runHandlers rest ev
      match h ev with
      | Except.ok _ => (tail.fst + 1, tail.snd)
      | Except.error e => (tail.fst + 1, some e)

/-- Modelled from the spec: report an error to the Exception Reporter,
tolerating and discarding any error the reporter itself throws (spec
§4.2 step 4); the value recorded is the error the reporter received. -/
def reportSafely (report : String → Except String Unit) (e : String) : String :=
  match report e with
  | Except.ok _ => e
  | Except.error _ => e

/-- Modelled from the spec: the persisted state of an event after all
its handlers succeeded — processed stamped with the completion time
(spec §4.2 step 3); every other field is untouched. -/
def processedEvent (ev : Event) (now : Int) : Event :=
  { ev with processed := some now }

/-- Modelled from the spec: the persisted state of an event after a
handler failed — failures incremented by one, lastFailure stamped with
the failure time, claimed cleared (spec §4.2 step 4); processed and
every other field untouched. -/
def failedEvent (ev : Event) (now : Int) : Event :=
  { ev with failures := ev.failures + 1, lastFailure := some now, claimed := none }

/-- Observable outcome of one dispatch call: the synchronous boolean
result, how many handlers ran, how many times the continuation fired,
the persisted state of the event afterwards, and the error handed to
the Exception Reporter, if any. -/
structure RunResult where
  accepted : Bool
  ran : Nat
  contCalls : Nat
  eventAfter : Option Event
  reportedErr : Option String
deriving Repr

/-- Modelled from the spec: the runner's dispatch (spec §4.2). A null
event or an unmatched action returns false with no continuation; a
match runs every handler, marks the event processed on all-success or
books the failure (failures plus one, lastFailure now, unclaimed) and
reports the first error on any failure, then fires the continuation
exactly once. -/
def dispatch (jobMap : JobMap) (report : String → Except String Unit) (now : Int)
    (event : Option Event) : RunResult :=
  match event with
  | none =>
      { accepted := false, ran := 0, contCalls := 0, eventAfter := none,
        reportedErr := none }
  | some ev =>
      match lookupJobs jobMap ev.action with
      | none =>
          { accepted := false, ran := 0, contCalls := 0, eventAfter := some ev,
            reportedErr := none }
      | some jobs =>
          let outcome := runHandlers jobs ev
          match outcome.snd with
          | none =>
              { accepted := true, ran := outcome.fst, contCalls := 1,
                eventAfter := some (processedEvent ev now),
                reportedErr := none }
          | some e =>
              { accepted := true, ran := outcome.fst, contCalls := 1,
                eventAfter := some (failedEvent ev now),
                reportedErr := some (reportSafely report e) }

/-! Concrete fixtures used to instantiate theorems at evaluable inputs. -/

/-- A fresh unprocessed event, the oldest in the sample store. -/
def wEv1 : Event := { id := 1, action := "a", loggedAt := 0 }

/-- An already-processed event. -/
def wEv2 : Event := { id := 2, action := "a", loggedAt := 5, processed := some 3 }

/-- A fresh unprocessed event newer than wEv1. -/
def wEv3 : Event := { id := 3, action := "a", loggedAt := 10 }

/-- The result of claiming wEv1 at time 100. -/
def wClaimed : Event := { wEv1 with claimed := some 100 }

/-- An event with four failures whose last failure was 11 minutes before
time 100. -/
def wEvBackoff : Event :=
  { id := 4, action := "a", loggedAt := 0, failures := 4, lastFailure := some 89 }

/-- An event with six failures. -/
def wEvCapped : Event := { id := 5, action := "a", loggedAt := 0, failures := 6 }

/-- An event with four failures and a stale backoff, used alone. -/
def wEvRetry : Event := { id := 6, action := "a", loggedAt := 0, failures := 4 }

/-- An event that failed at the current moment (time 0). -/
def wEvJustFailed : Event := { id := 7, action := "a", loggedAt := 0, lastFailure := some 0 }

/-- An unprocessed event claimed 180 minutes before time 200. -/
def wEvStale : Event := { id := 8, action := "a", loggedAt := 0, claimed := some 20 }

/-- A handler that always succeeds. -/
def wOk : Handler := fun _ => Except.ok ()

/-- A handler that always fails. -/
def wFail : Handler := fun _ => Except.error "uh oh"

/-- A reporter that always succeeds. -/
def wReport : String → Except String Unit := fun _ => Except.ok ()

/-- A reporter that itself throws. -/
def wBadReport : String → Except String Unit := fun _ => Except.error "no sentry for you"

/-- An event with the action name used by the runner fixtures. -/
def wEvTest : Event := { id := -1, action := "test.event", loggedAt := 0 }

/-- A registry with two succeeding handlers for the test action. -/
def wJobMapOk : JobMap := [("test.event", [wOk, wOk])]

/-- A registry where one handler for the test action fails. -/
def wJobMapFail : JobMap := [("test.event", [wOk, wFail])]

/-- A registry carrying only an unrelated action name. -/
def wJobMapOther : JobMap := [("other", [wOk])]

/-- A registry mapping the test action to an empty handler list. -/
def wJobMapEmpty : JobMap := [("test.event", [])]

/-! Helper lemmas about the selection preference and the fold. -/

theorem better_eq_false_iff (a b : Event) :
    better a b = false ↔
      b.loggedAt < a.loggedAt ∨ (b.loggedAt = a.loggedAt ∧ b.id ≤ a.id) := by
  unfold better
  split_ifs with h1 h2 <;> simp <;> omega

theorem better_eq_true_iff (a b : Event) :
    better a b = true ↔
      a.loggedAt < b.loggedAt ∨ (a.loggedAt = b.loggedAt ∧ a.id < b.id) := by
  unfold better
  split_ifs with h1 h2 <;> simp <;> omega

theorem better_false_trans {x b r : Event} (h1 : better x b = false)
    (h2 : better b r = false) : better x r = false := by
  rw [better_eq_false_iff] at h1 h2 ⊢
  omega

theorem foldl_pick_mem (l : List Event) :
    ∀ (acc : Option Event) (r : Event),
      l.foldl pickBetter acc = some r → acc = some r ∨ r ∈ l := by
  induction l with
  | nil => intro acc r h; exact Or.inl h
  | cons x xs ih =>
      intro acc r h
      simp only [List.foldl_cons] at h
      rcases ih (pickBetter acc x) r h with h2 | h2
      · cases acc with
        | none =>
            simp only [pickBetter, Option.some.injEq] at h2
            exact Or.inr (by simp [h2])
        | some b =>
            simp only [pickBetter] at h2
            by_cases hb : better x b = true
            · rw [if_pos hb] at h2
              simp only [Option.some.injEq] at h2
              exact Or.inr (by simp [h2])
            · rw [if_neg hb] at h2
              exact Or.inl h2
      · exact Or.inr (List.mem_cons_of_mem _ h2)

theorem foldl_pick_min (l : List Event) :
    ∀ (acc : Option Event) (r : Event),
      l.foldl pickBetter acc = some r →
      (∀ x, x ∈ l → better x r = false) ∧
      (∀ b, acc = some b → better b r = false) := by
  induction l with
  | nil =>
      intro acc r h
      refine ⟨fun x hx => absurd hx (List.not_mem_nil x), ?_⟩
      intro b hb
      rw [hb] at h
      simp only [List.foldl_nil, Option.some.injEq] at h
      rw [h, better_eq_false_iff]
      omega
  | cons x xs ih =>
      intro acc r h
      simp only [List.foldl_cons] at h
      obtain ⟨ihxs, ihacc⟩ := ih (pickBetter acc x) r h
      have hx : better x r = false := by
        cases acc with
        | none => exact ihacc x rfl
        | some b =>
            by_cases hb : better x b = true
            · exact ihacc x (by simp [pickBetter, hb])
            · have hbr : better b r = false := ihacc b (by simp [pickBetter, hb])
              exact better_false_trans (Bool.eq_false_iff.mpr hb) hbr
      refine ⟨?_, ?_⟩
      · intro y hy
        rcases List.mem_cons.mp hy with hy | hy
        · rw [hy]; exact hx
        · exact ihxs y hy
      · intro b hb
        subst hb
        by_cases hxb : better x b = true
        · have hxr : better x r = false := hx
          rw [better_eq_true_iff] at hxb
          rw [better_eq_false_iff] at hxr ⊢
          omega
        · exact ihacc b (by simp [pickBetter, hxb])

theorem selectEligible_mem {now : Int} {store : List Event} {r : Event}
    (h : selectEligible now store = some r) : r ∈ store ∧ eligible now r = true := by
  unfold selectEligible at h
  rcases foldl_pick_mem _ none r h with h2 | h2
  · cases h2
  · exact List.mem_filter.mp h2

theorem selectEligible_min {now : Int} {store : List Event} {r : Event}
    (h : selectEligible now store = some r) :
    ∀ x, x ∈ store → eligible now x = true → better x r = false := by
  intro x hx helig
  exact (foldl_pick_min _ none r h).1 x (List.mem_filter.mpr ⟨hx, helig⟩)

theorem claim_eq_some {now : Int} {store : List Event} {r : Event}
    (h : (claim now store).1 = some r) :
    ∃ e, selectEligible now store = some e ∧ r = { e with claimed := some now } ∧
      (claim now store).2 =
        store.map (fun x => if x.id = e.id then { e with claimed := some now } else x) := by
  cases hsel : selectEligible now store with
  | none => unfold claim at h; rw [hsel] at h; cases h
  | some e =>
      unfold claim at h
      rw [hsel] at h
      simp only [Option.some.injEq] at h
      refine ⟨e, rfl, h.symm, ?_⟩
      unfold claim
      rw [hsel]

theorem claim_eq_none {now : Int} {store : List Event}
    (h : (claim now store).1 = none) : (claim now store).2 = store := by
  unfold claim at h ⊢
  cases hsel : selectEligible now store with
  | none => rfl
  | some e => rw [hsel] at h; cases h

theorem claim_singleton {now : Int} {ev : Event} (h : eligible now ev = true) :
    claim now [ev] = (some { ev with claimed := some now },
                      [{ ev with claimed := some now }]) := by
  unfold claim selectEligible
  simp [List.filter, h, pickBetter]

/-! Helper lemmas about the runner. -/

theorem runHandlers_fst (jobs : List Handler) (ev : Event) :
    (runHandlers jobs ev).fst = jobs.length := by
  induction jobs with
  | nil => rfl
  | cons h rest ih =>
      unfold runHandlers
      cases h ev <;> simp [ih]

theorem runHandlers_all_ok {jobs : List Handler} {ev : Event}
    (h : ∀ j, j ∈ jobs → j ev = Except.ok ()) :
    runHandlers jobs ev = (jobs.length, none) := by
  induction jobs with
  | nil => rfl
  | cons j rest ih =>
      have hj : j ev = Except.ok () := h j (by simp)
      have hr : runHandlers rest ev = (rest.length, none) :=
        ih (fun x hx => h x (List.mem_cons_of_mem _ hx))
      unfold runHandlers
      rw [hj, hr]
      rfl

theorem runHandlers_err_mem {jobs : List Handler} {ev : Event} {e : String}
    (h : (runHandlers jobs ev).snd = some e) :
    ∃ j, j ∈ jobs ∧ j ev = Except.error e := by
  induction jobs with
  | nil => cases h
  | cons j rest ih =>
      unfold runHandlers at h
      cases hj : j ev with
      | ok u =>
          rw [hj] at h
          simp only at h
          obtain ⟨x, hx, hxe⟩ := ih h
          exact ⟨x, List.mem_cons_of_mem _ hx, hxe⟩
      | error e2 =>
          rw [hj] at h
          simp only [Option.some.injEq] at h
          exact ⟨j, by simp, by rw [hj, h]⟩

theorem runHandlers_snd_some {jobs : List Handler} {ev : Event} {j : Handler} {e : String}
    (hj : j ∈ jobs) (he : j ev = Except.error e) :
    ∃ err, (runHandlers jobs ev).snd = some err := by
  induction jobs with
  | nil => cases hj
  | cons x rest ih =>
      unfold runHandlers
      cases hx : x ev with
      | ok u =>
          simp only
          rcases List.mem_cons.mp hj with hj2 | hj2
          · subst hj2; rw [hx] at he; cases he
          · exact ih hj2
      | error e2 => exact ⟨e2, rfl⟩

theorem reportSafely_eq (report : String → Except String Unit) (e : String) :
    reportSafely report e = e := by
  unfold reportSafely
  cases report e <;> rfl

/-! Claim theorems about the runner. -/

/-- C1: dispatching an event whose action matches N registered handlers
(N at least one), all of which succeed, returns true, runs all N
handlers to completion, sets the event's processed timestamp to the
completion time, and fires the continuation exactly once. -/
theorem dispatch_all_success (jobMap : JobMap) (report : String → Except String Unit)
    (now : Int) (ev : Event) (jobs : List Handler)
    (hl : lookupJobs jobMap ev.action = some jobs) (_hn : 1 ≤ jobs.length)
    (hok : ∀ j, j ∈ jobs → j ev = Except.ok ()) :
    dispatch jobMap report now (some ev) =
      { accepted := true, ran := jobs.length, contCalls := 1,
        eventAfter := some (processedEvent ev now),
        reportedErr := none } := by
  simp only [dispatch, hl, runHandlers_all_ok hok]

/-- Witness for C1 at a concrete registry with two succeeding handlers. -/
theorem dispatch_all_success_witness :
    dispatch wJobMapOk wReport 50 (some wEvTest) =
      { accepted := true, ran := 2, contCalls := 1,
        eventAfter := some (processedEvent wEvTest 50),
        reportedErr := none } :=
  dispatch_all_success wJobMapOk wReport 50 wEvTest [wOk, wOk] rfl (by decide)
    (by
      intro j hj
      rcases List.mem_cons.mp hj with h2 | h2
      · rw [h2]; rfl
      · rcases List.mem_cons.mp h2 with h3 | h3
        · rw [h3]; rfl
        · cases h3)

/-- C2: dispatching an event where some matched handler fails increments
the event's failures by exactly one, sets lastFailure to the failure
time, clears claimed, leaves processed untouched, hands the triggering
error of a failing handler to the Exception Reporter, and still fires
the continuation exactly once — for an arbitrary reporter, including one
that itself throws. -/
theorem dispatch_handler_failure (jobMap : JobMap) (report : String → Except String Unit)
    (now : Int) (ev : Event) (jobs : List Handler) (j : Handler) (e0 : String)
    (hl : lookupJobs jobMap ev.action = some jobs)
    (hj : j ∈ jobs) (hje : j ev = Except.error e0) :
    ∃ err, (∃ k, k ∈ jobs ∧ k ev = Except.error err) ∧
      dispatch jobMap report now (some ev) =
        { accepted := true, ran := jobs.length, contCalls := 1,
          eventAfter := some (failedEvent ev now),
          reportedErr := some err } := by
  obtain ⟨err, herr⟩ := runHandlers_snd_some hj hje
  refine ⟨err, runHandlers_err_mem herr, ?_⟩
  simp only [dispatch, hl, herr, runHandlers_fst, reportSafely_eq]

/-- Witness for C2 with a failing handler and a reporter that throws. -/
theorem dispatch_handler_failure_witness :
    ∃ err, (∃ k, k ∈ [wOk, wFail] ∧ k wEvTest = Except.error err) ∧
      dispatch wJobMapFail wBadReport 50 (some wEvTest) =
        { accepted := true, ran := 2, contCalls := 1,
          eventAfter := some (failedEvent wEvTest 50),
          reportedErr := some err } :=
  dispatch_handler_failure wJobMapFail wBadReport 50 wEvTest [wOk, wFail] wFail "uh oh"
    rfl (List.mem_cons_of_mem _ (List.mem_cons_self _ _)) rfl

/-- C9: dispatch of a null event, and dispatch of an event whose action
has no entry in the Job Registry, both return false synchronously and
never invoke the continuation. -/
theorem dispatch_no_match (jobMap : JobMap) (report : String → Except String Unit)
    (now : Int) :
    ((dispatch jobMap report now none).accepted = false
      ∧ (dispatch jobMap report now none).contCalls = 0)
    ∧ ∀ ev, lookupJobs jobMap ev.action = none →
        (dispatch jobMap report now (some ev)).accepted = false
        ∧ (dispatch jobMap report now (some ev)).contCalls = 0 := by
  refine ⟨⟨rfl, rfl⟩, ?_⟩
  intro ev h
  simp [dispatch, h]

/-- Witness for C9 with a registry holding only an unrelated action. -/
theorem dispatch_no_match_witness :
    ((dispatch wJobMapOther wReport 0 none).accepted = false
      ∧ (dispatch wJobMapOther wReport 0 none).contCalls = 0)
    ∧ ((dispatch wJobMapOther wReport 0 (some wEvTest)).accepted = false
      ∧ (dispatch wJobMapOther wReport 0 (some wEvTest)).contCalls = 0) :=
  ⟨(dispatch_no_match wJobMapOther wReport 0).1,
   (dispatch_no_match wJobMapOther wReport 0).2 wEvTest rfl⟩

/-- C10: dispatching an event whose action is present in the registry
but mapped to an empty handler list returns true, runs zero handlers,
fires the continuation exactly once, and completes the event. -/
theorem dispatch_empty_handlers (jobMap : JobMap) (report : String → Except String Unit)
    (now : Int) (ev : Event) (hl : lookupJobs jobMap ev.action = some []) :
    dispatch jobMap report now (some ev) =
      { accepted := true, ran := 0, contCalls := 1,
        eventAfter := some (processedEvent ev now),
        reportedErr := none } := by
  simp only [dispatch, hl]
  rfl

/-- Witness for C10 with a registry mapping the action to no handlers. -/
theorem dispatch_empty_handlers_witness :
    dispatch wJobMapEmpty wReport 50 (some wEvTest) =
      { accepted := true, ran := 0, contCalls := 1,
        eventAfter := some (processedEvent wEvTest 50),
        reportedErr := none } :=
  dispatch_empty_handlers wJobMapEmpty wReport 50 wEvTest rfl

/-! Claim theorems about the checker. -/

/-- C3: every checker call claims at most one event — when it returns
an event, that event carries the call time in its claimed field and is
persisted as such in the store, while every event with a different id
is left in the store unchanged; when it returns none, no event changes. -/
theorem claim_frame (now : Int) (store : List Event) :
    (∀ r, (claim now store).1 = some r →
        r.claimed = some now
        ∧ r ∈ (claim now store).2
        ∧ (∀ e, e ∈ store → e.id ≠ r.id → e ∈ (claim now store).2))
    ∧ ((claim now store).1 = none → (claim now store).2 = store) := by
  constructor
  · intro r h
    obtain ⟨e, hsel, hr, hsnd⟩ := claim_eq_some h
    have hmem := (selectEligible_mem hsel).1
    refine ⟨by rw [hr], ?_, ?_⟩
    · rw [hsnd]
      exact List.mem_map.mpr ⟨e, hmem, by rw [if_pos rfl, hr]⟩
    · intro x hx hne
      rw [hsnd]
      refine List.mem_map.mpr ⟨x, hx, ?_⟩
      rw [if_neg]
      intro hid
      exact hne (by rw [hr]; exact hid)
  · exact claim_eq_none

/-- Witness for C3: claiming from a two-event store stamps and persists
the eligible event and leaves the other event unchanged. -/
theorem claim_frame_witness :
    wClaimed.claimed = some 100
    ∧ wClaimed ∈ (claim 100 [wEv1, wEv2]).2
    ∧ wEv2 ∈ (claim 100 [wEv1, wEv2]).2 := by
  have h := (claim_frame 100 [wEv1, wEv2]).1 wClaimed (by decide)
  exact ⟨h.1, h.2.1, h.2.2 wEv2 (by decide) (by decide)⟩

/-- C4: the checker never returns an event whose processed field is
non-null — any returned event has processed unset, and no store event
with processed set is ever the selected candidate. -/
theorem claim_never_returns_processed (now : Int) (store : List Event) :
    (∀ r, (claim now store).1 = some r → r.processed = none)
    ∧ (∀ ev, ev ∈ store → ev.processed ≠ none → selectEligible now store ≠ some ev) := by
  constructor
  · intro r h
    obtain ⟨e, hsel, hr, _⟩ := claim_eq_some h
    have helig := (selectEligible_mem hsel).2
    unfold eligible at helig
    simp only [Bool.and_eq_true, Option.isNone_iff_eq_none] at helig
    rw [hr]
    exact helig.1.1.1
  · intro ev hmem hp hsel
    have helig := (selectEligible_mem hsel).2
    unfold eligible at helig
    simp only [Bool.and_eq_true, Option.isNone_iff_eq_none] at helig
    exact hp helig.1.1.1

/-- Witness for C4: the claimed event of the sample store is
unprocessed, and the processed event is never selected. -/
theorem claim_never_returns_processed_witness :
    wClaimed.processed = none ∧ selectEligible 100 [wEv1, wEv2] ≠ some wEv2 :=
  ⟨(claim_never_returns_processed 100 [wEv1, wEv2]).1 wClaimed (by decide),
   (claim_never_returns_processed 100 [wEv1, wEv2]).2 wEv2 (by decide) (by decide)⟩

/-- C5: no checker call ever returns an event whose failures count is
at or above the retry cap — every returned event has failures below the
cap, an event with 6 failures is never eligible regardless of its
lastFailure and claimed fields, and an event with 4 failures can still
be eligible. -/
theorem claim_retry_cap :
    (∀ (now : Int) (store : List Event) (r : Event),
        (claim now store).1 = some r → r.failures < maxFailures)
    ∧ (∀ (now : Int) (ev : Event), 6 ≤ ev.failures → eligible now ev = false)
    ∧ (∃ (now : Int) (ev : Event), ev.failures = 4 ∧ eligible now ev = true) := by
  refine ⟨?_, ?_, ?_⟩
  · intro now store r h
    obtain ⟨e, hsel, hr, _⟩ := claim_eq_some h
    have helig := (selectEligible_mem hsel).2
    unfold eligible at helig
    simp only [Bool.and_eq_true, decide_eq_true_eq] at helig
    rw [hr]
    exact helig.1.2
  · intro now ev h
    unfold eligible
    have hc : decide (ev.failures < maxFailures) = false := by
      simp only [maxFailures, decide_eq_false_iff_not]
      omega
    rw [hc]
    simp
  · exact ⟨0, wEvRetry, rfl, by decide⟩

/-- Witness for C5: the claimed event is under the cap, and the event
with six failures is ineligible. -/
theorem claim_retry_cap_witness :
    wClaimed.failures < maxFailures ∧ eligible 0 wEvCapped = false :=
  ⟨claim_retry_cap.1 100 [wEv1, wEv2] wClaimed (by decide),
   claim_retry_cap.2.1 0 wEvCapped (by decide)⟩

/-- C6: the checker never returns an event whose lastFailure is within
the backoff interval of the call time; once the interval has elapsed
the event is eligible again — an event with 4 failures that last failed
11 minutes ago is returned, while an event that failed at the current
moment is ineligible. -/
theorem claim_backoff :
    (∀ (now : Int) (store : List Event) (r : Event),
        (claim now store).1 = some r →
        ∀ f, r.lastFailure = some f → backoffInterval < now - f)
    ∧ (∀ (now : Int) (ev : Event), ev.processed = none → ev.claimed = none →
        ev.failures = 4 → ev.lastFailure = some (now - 11) →
        (claim now [ev]).1 = some { ev with claimed := some now })
    ∧ (∀ (now : Int) (ev : Event), ev.lastFailure = some now →
        eligible now ev = false) := by
  refine ⟨?_, ?_, ?_⟩
  · intro now store r h f hf
    obtain ⟨e, hsel, hr, _⟩ := claim_eq_some h
    have helig := (selectEligible_mem hsel).2
    have hef : e.lastFailure = some f := by rw [hr] at hf; exact hf
    unfold eligible backoffOk at helig
    rw [hef] at helig
    simp only [Bool.and_eq_true, decide_eq_true_eq] at helig
    exact helig.2
  · intro now ev h1 h2 h3 h4
    have helig : eligible now ev = true := by
      unfold eligible claimOk backoffOk
      rw [h1, h2, h3, h4]
      simp only [maxFailures, backoffInterval, Option.isNone_none, Bool.true_and]
      have hb : decide ((10:Int) < now - (now - 11)) = true := by
        simp only [decide_eq_true_eq]
        omega
      rw [hb]
      simp
    rw [claim_singleton helig]
  · intro now ev h
    have hlt : ¬ (backoffInterval < now - now) := by
      simp only [backoffInterval]
      omega
    unfold eligible backoffOk
    rw [h]
    simp [hlt]
    intro _ _ _
    decide

/-- Witness for C6: both sides of the backoff boundary at concrete
times — the event that failed 11 minutes ago is claimed, the event that
failed at the current moment is ineligible. -/
theorem claim_backoff_witness :
    backoffInterval < 100 - 89
    ∧ (claim 100 [wEvBackoff]).1 = some { wEvBackoff with claimed := some 100 }
    ∧ eligible 0 wEvJustFailed = false :=
  ⟨claim_backoff.1 100 [wEvBackoff] { wEvBackoff with claimed := some 100 }
      (by decide) 89 (by decide),
   claim_backoff.2.1 100 wEvBackoff rfl rfl rfl (by decide),
   claim_backoff.2.2 0 wEvJustFailed rfl⟩

/-- C7: an unprocessed event whose claimed timestamp is older than the
staleness threshold (observed: 3 hours, here 180 minutes against a
120-minute threshold) is returned by a checker call again, even though
its claimed field is non-null. -/
theorem claim_stale_reclaim (now : Int) (ev : Event) (c : Int)
    (hp : ev.processed = none) (hc : ev.claimed = some c)
    (hstale : staleThreshold < now - c) (hf : ev.failures < maxFailures)
    (hl : ev.lastFailure = none) :
    (claim now [ev]).1 = some { ev with claimed := some now } := by
  have helig : eligible now ev = true := by
    unfold eligible claimOk backoffOk
    rw [hp, hc, hl]
    simp only [Option.isNone_none, Bool.true_and, Bool.and_true]
    rw [decide_eq_true hstale, decide_eq_true hf]
    simp
  rw [claim_singleton helig]

/-- Witness for C7: the event claimed 180 minutes before the call is
reclaimed. -/
theorem claim_stale_reclaim_witness :
    (claim 200 [wEvStale]).1 = some { wEvStale with claimed := some 200 } :=
  claim_stale_reclaim 200 wEvStale 20 rfl rfl (by decide) (by decide) rfl

/-- C8: a checker call that returns an event returns an eligible store
event with the oldest loggedAt among all eligible events, ties broken
deterministically by smallest id. -/
theorem claim_fifo (now : Int) (store : List Event) (r : Event)
    (h : (claim now store).1 = some r) :
    ∃ e, e ∈ store ∧ eligible now e = true ∧ r = { e with claimed := some now } ∧
      ∀ x, x ∈ store → eligible now x = true →
        e.loggedAt < x.loggedAt ∨ (e.loggedAt = x.loggedAt ∧ e.id ≤ x.id) := by
  obtain ⟨e, hsel, hr, _⟩ := claim_eq_some h
  obtain ⟨hmem, helig⟩ := selectEligible_mem hsel
  refine ⟨e, hmem, helig, hr, ?_⟩
  intro x hx hex
  have hb := selectEligible_min hsel x hx hex
  rw [better_eq_false_iff] at hb
  exact hb

/-- Witness for C8: with two eligible events the older one is the
claimed result. -/
theorem claim_fifo_witness :
    ∃ e, e ∈ [wEv3, wEv1] ∧ eligible 100 e = true
      ∧ wClaimed = { e with claimed := some 100 }
      ∧ ∀ x, x ∈ [wEv3, wEv1] → eligible 100 x = true →
          e.loggedAt < x.loggedAt ∨ (e.loggedAt = x.loggedAt ∧ e.id ≤ x.id) :=
  claim_fifo 100 [wEv3, wEv1] wClaimed (by decide)

end Worker
